import Mathlib

/-!
Verification of the core logic of the inventory analysis application
(`ana.py`): value coercion, record standardization, variance
classification, vendor aggregation and top-K ranking helpers.

Python strings are modelled as `List Char`.  Cell values coming from the
tabular source are modelled by `Cell`: either a missing value (pandas
`NaN` / Python `None`, for which `pd.isna` is true) or a text value;
numeric cells enter the model through their text rendering.  Python
floats are idealized as exact rationals (`ℚ`); the model of the built-in
`float()` parser covers finite decimal literals (sign, digits, decimal
point, exponent, PEP-515 digit-group underscores) and treats the special
spellings `inf`/`infinity`/`nan` as out of scope, which the theorems
guard against explicitly where it matters.
-/

namespace Ana

abbrev Chars := List Char

/-- A raw cell value: missing (pandas `NaN` / `None`) or text. -/
inductive Cell where
  | na : Cell
  | str : Chars → Cell
  deriving DecidableEq, Repr

/-- Python `str(...)` applied to a cell: `str(nan) = "nan"`. -/
def cellStr : Cell → Chars
  | .na => ['n', 'a', 'n']
  | .str s => s

/-- Characters stripped by Python `str.strip()` (ASCII whitespace). -/
def isPySpace (c : Char) : Bool :=
  c == ' ' || c == '\t' || c == '\n' || c == '\r' || c == '\x0b' || c == '\x0c'

/-- Python `str.strip()`: drop leading and trailing whitespace. -/
def pyStrip (s : Chars) : Chars :=
  ((s.dropWhile isPySpace).reverse.dropWhile isPySpace).reverse

/-- Python `str.replace(c, '')`: remove every occurrence of `c`. -/
def removeChar (c : Char) (s : Chars) : Chars :=
  s.filter (fun d => d ≠ c)

/-- Python `str.lower()` on ASCII data. -/
def lowerChars (s : Chars) : Chars :=
  s.map Char.toLower

def digitsToNat (s : Chars) : Nat :=
  s.foldl (fun acc c => 10 * acc + (c.toNat - '0'.toNat)) 0

/-- PEP 515: every underscore in a numeric literal must sit between two
digits.  `prev` is the character immediately before the current suffix. -/
def underscoresOkAux : Option Char → Chars → Bool
  | _, [] => true
  | prev, c :: rest =>
    if c = '_' then
      match prev, rest with
      | some p, d :: _ => p.isDigit && d.isDigit && underscoresOkAux (some c) rest
      | _, _ => false
    else underscoresOkAux (some c) rest

def underscoresOk (s : Chars) : Bool :=
  underscoresOkAux none s

def parseSign : Chars → Bool × Chars
  | '+' :: r => (false, r)
  | '-' :: r => (true, r)
  | r => (false, r)

def spanDigits (s : Chars) : Chars × Chars :=
  (s.takeWhile Char.isDigit, s.dropWhile Char.isDigit)

/-- Exponent suffix after `e`/`E`: optional sign then at least one digit,
consuming the whole rest of the string. -/
def parseExp (s : Chars) : Option Int :=
  let (sg, r) := parseSign s
  let (ds, r2) := spanDigits r
  if ds.isEmpty || !r2.isEmpty then none
  else some (if sg then -(digitsToNat ds : Int) else (digitsToNat ds : Int))

/-- The syntactic content of a finite decimal literal: sign, mantissa
digits, number of digits after the point, exponent. -/
structure NumLit where
  neg : Bool
  mant : Nat
  fracLen : Nat
  ex : Int
  deriving DecidableEq, Repr

def pow10 (n : Nat) : ℚ := (10 : ℚ) ^ n

def applyExp (v : ℚ) (ex : Int) : ℚ :=
  if 0 ≤ ex then v * pow10 ex.toNat else v / pow10 (-ex).toNat

/-- The rational value `sign * mant / 10^fracLen * 10^ex` of a literal. -/
def NumLit.toRat (l : NumLit) : ℚ :=
  applyExp ((if l.neg then -(l.mant : ℚ) else (l.mant : ℚ)) / pow10 l.fracLen) l.ex

/-- Finite decimal literal, underscores already removed:
`[sign] (digits [. digits] | . digits) [(e|E) [sign] digits]`. -/
def parsePlainFloat (s : Chars) : Option NumLit :=
  let (sg, r) := parseSign s
  let (ip, r1) := spanDigits r
  let (fp, r2) :=
    match r1 with
    | '.' :: r' => spanDigits r'
    | _ => ([], r1)
  if ip.isEmpty && fp.isEmpty then none
  else
    match r2 with
    | [] => some ⟨sg, digitsToNat (ip ++ fp), fp.length, 0⟩
    | c :: r' =>
      if c = 'e' || c = 'E' then
        match parseExp r' with
        | none => none
        | some ex => some ⟨sg, digitsToNat (ip ++ fp), fp.length, ex⟩
      else none

/-- Syntactic parse underlying `float(str)`. -/
def pyParse (s : Chars) : Option NumLit :=
  if underscoresOk s then parsePlainFloat (removeChar '_' s) else none

/-- Model of Python `float(str)` on finite decimal literals. -/
def pyFloat (s : Chars) : Option ℚ :=
  (pyParse s).map NumLit.toRat

/-- The special spellings Python `float` also accepts but the rational
model does not: optionally signed `inf`, `infinity`, `nan` (any case). -/
def isSpecialFloat (s : Chars) : Bool :=
  let (_, r) := parseSign s
  lowerChars r == ['i', 'n', 'f'] ||
    lowerChars r == ['i', 'n', 'f', 'i', 'n', 'i', 't', 'y'] ||
    lowerChars r == ['n', 'a', 'n']

/-- The normalization both converters share: strip whitespace, remove
commas, remove spaces (`str(value).strip().replace(',', '').replace(' ', '')`). -/
def normalizeNum (s : Chars) : Chars :=
  removeChar ' ' (removeChar ',' (pyStrip s))

/-- `safe_float_convert` additionally drops one trailing percent sign. -/
def dropPercent (s : Chars) : Chars :=
  if s.getLast? = some '%' then s.dropLast else s

/-- `InventoryAnalyzer.safe_float_convert`. -/
def safe_float_convert : Cell → ℚ
  | .na => 0
  | .str s => if s = [] then 0 else (pyFloat (dropPercent (normalizeNum s))).getD 0

/-- Python `int()` applied to a (finite) float: truncation toward zero. -/
def pyTrunc (q : ℚ) : ℤ :=
  if 0 ≤ q then ⌊q⌋ else ⌈q⌉

/-- `InventoryAnalyzer.safe_int_convert` (note: no percent-sign strip). -/
def safe_int_convert : Cell → ℤ
  | .na => 0
  | .str s =>
    if s = [] then 0 else
      match pyFloat (normalizeNum s) with
      | none => 0
      | some q => pyTrunc q

/-- Classification outcome of `determine_status`. -/
inductive Status where
  | withinNorms
  | excessInventory
  | shortInventory
  deriving DecidableEq, Repr

/-- `InventoryAnalyzer.calculate_variance`: `(variance_percent, variance_value)`. -/
def calculate_variance (qty rm : ℚ) : ℚ × ℚ :=
  if rm = 0 then (0, 0)
  else ((qty - rm) / rm * 100, qty - rm)

/-- `InventoryAnalyzer.determine_status`. -/
def determine_status (variancePercent tolerance : ℚ) : Status :=
  if |variancePercent| ≤ tolerance then .withinNorms
  else if variancePercent > tolerance then .excessInventory
  else .shortInventory

theorem safe_float_convert_str (s : Chars) :
    safe_float_convert (.str s) =
      if s = [] then 0 else (pyFloat (dropPercent (normalizeNum s))).getD 0 := rfl

theorem safe_int_convert_str (s : Chars) :
    safe_int_convert (.str s) =
      if s = [] then 0 else
        match pyFloat (normalizeNum s) with
        | none => 0
        | some q => pyTrunc q := rfl

theorem pyFloat_eq (s : Chars) : pyFloat s = (pyParse s).map NumLit.toRat := rfl

example : safe_float_convert (.str "1,234.50".data) = 1234.5 := by
  have h : pyParse (dropPercent (normalizeNum "1,234.50".data)) =
      some ⟨false, 123450, 2, 0⟩ := by decide
  rw [safe_float_convert_str, if_neg (by decide), pyFloat_eq, h]
  norm_num [NumLit.toRat, applyExp, pow10]

example : safe_float_convert (.str "15%".data) = 15 := by
  have h : pyParse (dropPercent (normalizeNum "15%".data)) =
      some ⟨false, 15, 0, 0⟩ := by decide
  rw [safe_float_convert_str, if_neg (by decide), pyFloat_eq, h]
  norm_num [NumLit.toRat, applyExp, pow10]

example : safe_float_convert .na = 0 := rfl

example : safe_int_convert (.str "2,500".data) = 2500 := by
  have h : pyParse (normalizeNum "2,500".data) = some ⟨false, 2500, 0, 0⟩ := by decide
  rw [safe_int_convert_str, if_neg (by decide), pyFloat_eq, h]
  norm_num [NumLit.toRat, applyExp, pow10, pyTrunc]

example : safe_int_convert (.str "abc".data) = 0 := by
  have h : pyParse (normalizeNum "abc".data) = none := by decide
  rw [safe_int_convert_str, if_neg (by decide), pyFloat_eq, h]
  rfl

example : pyParse "1_0".data = some ⟨false, 10, 0, 0⟩ := by decide
example : pyParse "-2.5e1".data = some ⟨true, 25, 1, 1⟩ := by decide
example : pyParse "1_".data = none := by decide
example : pyParse "".data = none := by decide
example : pyTrunc (-5/2) = -2 := by
  rw [pyTrunc, if_neg (by norm_num)]
  rw [show (-5/2 : ℚ) = -(((5 : ℤ) : ℚ) / ((2 : ℕ) : ℚ)) by norm_num]
  rw [Int.ceil_neg, Rat.floor_intCast_div_natCast]
  decide

example : calculate_variance 28 20 = (40, 8) := by
  rw [calculate_variance, if_neg (by norm_num)]
  norm_num

example : determine_status 40 30 = .excessInventory := by
  rw [determine_status, if_neg (by rw [abs_of_nonneg] <;> norm_num), if_pos (by norm_num)]

example : determine_status 10 30 = .withinNorms := by
  rw [determine_status, if_pos (by rw [abs_of_nonneg] <;> norm_num)]

/-- A canonical inventory item produced by `standardize_inventory_data`
(dict keys Material, Description, QTY, RM IN QTY, Stock_Value, Vendor). -/
structure Item where
  material : Chars
  description : Chars
  qty : ℚ
  rm : ℚ
  stockValue : ℤ
  vendor : Chars
  deriving DecidableEq, Repr

/-- An item as enriched by `process_data`. -/
structure ProcessedItem where
  material : Chars
  description : Chars
  qty : ℚ
  rm : ℚ
  variancePercent : ℚ
  varianceValue : ℚ
  status : Status
  stockValue : ℤ
  vendor : Chars
  deriving DecidableEq, Repr

/-- Per-status totals accumulated by `process_data` (`summary_data`). -/
structure StatusTotals where
  count : ℕ
  value : ℤ
  deriving DecidableEq, Repr

structure Summary where
  withinNorms : StatusTotals
  excessInventory : StatusTotals
  shortInventory : StatusTotals
  deriving DecidableEq, Repr

def initSummary : Summary := ⟨⟨0, 0⟩, ⟨0, 0⟩, ⟨0, 0⟩⟩

/-- The body of the `process_data` loop for one item. -/
def processItem (tolerance : ℚ) (item : Item) : ProcessedItem :=
  let v := calculate_variance item.qty item.rm
  { material := item.material
    description := item.description
    qty := item.qty
    rm := item.rm
    variancePercent := v.1
    varianceValue := v.2
    status := determine_status v.1 tolerance
    stockValue := item.stockValue
    vendor := item.vendor }

def bumpTotals (t : StatusTotals) (v : ℤ) : StatusTotals :=
  ⟨t.count + 1, t.value + v⟩

/-- `summary_data[status]['count'] += 1; summary_data[status]['value'] += stock_value`. -/
def addToSummary (s : Summary) (p : ProcessedItem) : Summary :=
  match p.status with
  | .withinNorms => { s with withinNorms := bumpTotals s.withinNorms p.stockValue }
  | .excessInventory => { s with excessInventory := bumpTotals s.excessInventory p.stockValue }
  | .shortInventory => { s with shortInventory := bumpTotals s.shortInventory p.stockValue }

/-- `InventoryAnalyzer.process_data`. -/
def process_data (inventoryData : List Item) (tolerance : ℚ) :
    List ProcessedItem × Summary :=
  let processed := inventoryData.map (processItem tolerance)
  (processed, processed.foldl addToSummary initSummary)

/-- Per-vendor accumulator of `get_vendor_summary`. -/
structure VendorStats where
  total_parts : ℕ
  total_qty : ℚ
  total_rm : ℚ
  total_value : ℤ
  short_parts : ℕ
  excess_parts : ℕ
  normal_parts : ℕ
  short_value : ℤ
  excess_value : ℤ
  normal_value : ℤ
  deriving DecidableEq, Repr

def emptyVendorStats : VendorStats := ⟨0, 0, 0, 0, 0, 0, 0, 0, 0, 0⟩

/-- The per-item update of one vendor's accumulator. -/
def addItemToStats (st : VendorStats) (p : ProcessedItem) : VendorStats :=
  let st := { st with
    total_parts := st.total_parts + 1
    total_qty := st.total_qty + p.qty
    total_rm := st.total_rm + p.rm
    total_value := st.total_value + p.stockValue }
  match p.status with
  | .shortInventory =>
    { st with short_parts := st.short_parts + 1, short_value := st.short_value + p.stockValue }
  | .excessInventory =>
    { st with excess_parts := st.excess_parts + 1, excess_value := st.excess_value + p.stockValue }
  | .withinNorms =>
    { st with normal_parts := st.normal_parts + 1, normal_value := st.normal_value + p.stockValue }

/-- Update the vendor→stats mapping (dict keyed by vendor, lazily created
entry, first-seen key order). -/
def updateVendor : List (Chars × VendorStats) → ProcessedItem → List (Chars × VendorStats)
  | [], p => [(p.vendor, addItemToStats emptyVendorStats p)]
  | (v, st) :: rest, p =>
    if v = p.vendor then (v, addItemToStats st p) :: rest
    else (v, st) :: updateVendor rest p

/-- `InventoryAnalyzer.get_vendor_summary`. -/
def get_vendor_summary (processedData : List ProcessedItem) : List (Chars × VendorStats) :=
  processedData.foldl updateVendor []

/-! ### Field resolver and record standardizer -/

/-- One raw row: header label → cell value. -/
abbrev Row := List (Chars × Cell)

/-- A raw tabular dataset (`pd.DataFrame`): column labels plus rows. -/
structure RawDf where
  headers : List Chars
  rows : List Row
  deriving Repr

/-- `k.lower().replace(' ', '_')` applied to a header label. -/
def normalizeHeader (h : Chars) : Chars :=
  h.map fun c => if c.toLower = ' ' then '_' else c.toLower

/-- Lookup in `available_columns = \x7bk.lower().replace(' ','_'): k for k in df.columns\x7d`:
of all headers normalizing to `key`, the dict comprehension keeps the last. -/
def lookupNormalized (headers : List Chars) (key : Chars) : Option Chars :=
  (headers.filter fun h => normalizeHeader h == key).getLast?

/-- First synonym (in priority order) that resolves to a header. -/
def findColumn (headers : List Chars) (synonyms : List Chars) : Option Chars :=
  synonyms.findSome? (lookupNormalized headers)

def qty_columns : List Chars :=
  ["qty".data, "quantity".data, "current_qty".data, "stock_qty".data]

def rm_columns : List Chars :=
  ["rm".data, "rm_qty".data, "required_qty".data, "norm_qty".data, "target_qty".data,
    "rm_in_qty".data, "ri_in_qty".data]

def material_columns : List Chars :=
  ["material".data, "material_code".data, "part_number".data, "item_code".data,
    "code".data, "part_no".data]

def desc_columns : List Chars :=
  ["description".data, "item_description".data, "part_description".data, "desc".data,
    "part description".data, "material_description".data, "part_desc".data]

def value_columns : List Chars :=
  ["stock_value".data, "value".data, "amount".data, "cost".data]

def vendor_columns : List Chars :=
  ["vendor".data, "vendor_name".data, "supplier".data, "supplier_name".data]

def strUnknown : Chars := "Unknown".data

/-- `record.get(col, default)`. -/
def rowGet (row : Row) (key : Chars) (dflt : Cell) : Cell :=
  match row.find? (fun kv => kv.1 == key) with
  | some kv => kv.2
  | none => dflt

def rawMaterial (matCol : Chars) (row : Row) : Chars :=
  pyStrip (cellStr (rowGet row matCol (.str [])))

def rawQty (qtyCol : Chars) (row : Row) : ℚ :=
  safe_float_convert (rowGet row qtyCol (.str ['0']))

def rawRm (rmCol : Chars) (row : Row) : ℚ :=
  safe_float_convert (rowGet row rmCol (.str ['0']))

def rawVendor (vendorCol : Option Chars) (row : Row) : Chars :=
  match vendorCol with
  | some vc => pyStrip (cellStr (rowGet row vc (.str strUnknown)))
  | none => strUnknown

/-- The acceptance test of the per-record loop:
`if material and material.lower() != 'nan' and qty >= 0 and rm >= 0`. -/
def rowAccepted (matCol qtyCol rmCol : Chars) (row : Row) : Bool :=
  decide (rawMaterial matCol row ≠ [] ∧ lowerChars (rawMaterial matCol row) ≠ ['n', 'a', 'n'] ∧
    0 ≤ rawQty qtyCol row ∧ 0 ≤ rawRm rmCol row)

/-- The item dict appended for an accepted record. -/
def mkRowItem (matCol qtyCol rmCol : Chars) (descCol valCol vendorCol : Option Chars)
    (row : Row) : Item :=
  { material := rawMaterial matCol row
    description :=
      match descCol with
      | some dc => pyStrip (cellStr (rowGet row dc (.str [])))
      | none => []
    qty := rawQty qtyCol row
    rm := rawRm rmCol row
    stockValue :=
      match valCol with
      | some vc => safe_int_convert (rowGet row vc (.str ['0']))
      | none => 0
    vendor := rawVendor vendorCol row }

def buildItem (matCol qtyCol rmCol : Chars) (descCol valCol vendorCol : Option Chars)
    (row : Row) : Option Item :=
  if rowAccepted matCol qtyCol rmCol row then
    some (mkRowItem matCol qtyCol rmCol descCol valCol vendorCol row)
  else none

/-- `InventoryAnalyzer.standardize_inventory_data`. -/
def standardize_inventory_data (df : RawDf) : List Item :=
  if df.rows = [] then []
  else
    match findColumn df.headers qty_columns, findColumn df.headers rm_columns,
        findColumn df.headers material_columns with
    | some qtyCol, some rmCol, some matCol =>
      df.rows.filterMap
        (buildItem matCol qtyCol rmCol (findColumn df.headers desc_columns)
          (findColumn df.headers value_columns) (findColumn df.headers vendor_columns))
    | _, _, _ => []

/-! ### Ranking helpers -/

/-- `[item for item in processed_data if item['Status'] == status]`. -/
def filterByStatus (processedData : List ProcessedItem) (status : Status) : List ProcessedItem :=
  processedData.filter fun it => decide (it.status = status)

/-- The sort key of the ranking helpers: `abs(x['Variance_Value'])` for
Short Inventory, signed `x['Variance_Value']` otherwise. -/
def varianceSortKey (status : Status) (p : ProcessedItem) : ℚ :=
  if status = .shortInventory then |p.varianceValue| else p.varianceValue

/-- `sorted(..., key=..., reverse=True)` is a stable sort; it is the
stable merge sort under the descending comparison on the key. -/
def rankLE (status : Status) (a b : ProcessedItem) : Bool :=
  decide (varianceSortKey status b ≤ varianceSortKey status a)

/-- The `sorted(filtered_data, ...)[:10]` selection of `create_top_parts_chart`. -/
def top_parts_selection (processedData : List ProcessedItem) (status : Status) :
    List ProcessedItem :=
  ((filterByStatus processedData status).mergeSort (rankLE status)).take 10

/-- `vendor_data[vendor].append(item)` grouping of
`create_vendor_wise_top_parts_chart` (dict keyed by vendor, first-seen order). -/
def addToGroup : List (Chars × List ProcessedItem) → ProcessedItem →
    List (Chars × List ProcessedItem)
  | [], p => [(p.vendor, [p])]
  | (v, xs) :: rest, p =>
    if v = p.vendor then (v, xs ++ [p]) :: rest
    else (v, xs) :: addToGroup rest p

def groupByVendor (items : List ProcessedItem) : List (Chars × List ProcessedItem) :=
  items.foldl addToGroup []

/-- The `sorted(items, ...)[:3]` per-vendor selection of
`create_vendor_wise_top_parts_chart`. -/
def vendor_wise_top_parts (processedData : List ProcessedItem) (status : Status) :
    List (Chars × List ProcessedItem) :=
  (groupByVendor (filterByStatus processedData status)).map
    fun g => (g.1, (g.2.mergeSort (rankLE status)).take 3)

/-! ### C1, C2, C4 -/

/-- C1 counterexample: the claim says `calculate_variance(qty, norm)` returns
`value = qty - norm` including when `norm == 0`; at `qty = 5`, `norm = 0` the
code returns value `0`, not `5 - 0`. -/
theorem calculate_variance_zero_norm_cex : (calculate_variance 5 0).2 ≠ 5 - 0 := by
  norm_num [calculate_variance]

/-- C1 (amended): for `norm ≠ 0`, `calculate_variance` returns
`percent = (qty-norm)/norm*100` and `value = qty-norm`; for `norm = 0` it
returns `(0, 0)` — the value, too, is forced to zero. -/
theorem calculate_variance_spec (qty rm : ℚ) :
    (rm ≠ 0 → calculate_variance qty rm = ((qty - rm) / rm * 100, qty - rm)) ∧
    (rm = 0 → calculate_variance qty rm = (0, 0)) := by
  constructor
  · intro h
    simp only [calculate_variance, if_neg h]
  · intro h
    simp only [calculate_variance, if_pos h]

/-- C1 witness: the amended characterization at `(28, 20)` and `(7, 0)`. -/
theorem calculate_variance_spec_witness :
    calculate_variance 28 20 = ((28 - 20) / 20 * 100, 28 - 20) ∧
      calculate_variance 7 0 = (0, 0) :=
  ⟨(calculate_variance_spec 28 20).1 (by norm_num), (calculate_variance_spec 7 0).2 rfl⟩

/-- C2: for any tolerance `t > 0`, an item with norm quantity `0` is always
classified Within Norms, whatever its quantity: its variance percent is
forced to `0` and `|0| ≤ t`. -/
theorem zero_norm_within_norms (qty tolerance : ℚ) (ht : 0 < tolerance) :
    determine_status (calculate_variance qty 0).1 tolerance = Status.withinNorms := by
  have h : calculate_variance qty 0 = (0, 0) := by simp [calculate_variance]
  rw [h]
  simp only [determine_status]
  rw [abs_zero, if_pos ht.le]

/-- C2 witness: quantity `1000000`, norm `0`, tolerance `30`. -/
theorem zero_norm_within_norms_witness :
    determine_status (calculate_variance 1000000 0).1 30 = Status.withinNorms :=
  zero_norm_within_norms 1000000 30 (by norm_num)

/-- C4: for tolerance `t > 0`, `determine_status p t` returns exactly one of
the three statuses; Within Norms iff `|p| ≤ t`, Excess Inventory iff `p > t`,
and Short Inventory exactly in the remaining case. -/
theorem determine_status_trichotomy (p t : ℚ) (ht : 0 < t) :
    (determine_status p t = Status.withinNorms ∨
      determine_status p t = Status.excessInventory ∨
      determine_status p t = Status.shortInventory) ∧
    (determine_status p t = Status.withinNorms ↔ |p| ≤ t) ∧
    (determine_status p t = Status.excessInventory ↔ t < p) ∧
    (determine_status p t = Status.shortInventory ↔ ¬ |p| ≤ t ∧ ¬ t < p) := by
  simp only [determine_status]
  by_cases h1 : |p| ≤ t
  · have h2 : ¬ t < p := not_lt.mpr ((le_abs_self p).trans h1)
    rw [if_pos h1]
    exact ⟨Or.inl rfl, by simp [h1], by simp [h2], by simp [h1]⟩
  · rw [if_neg h1]
    by_cases h2 : p > t
    · rw [if_pos h2]
      exact ⟨Or.inr (Or.inl rfl), by simp [h1], iff_of_true rfl h2, by simp [h1, h2]⟩
    · rw [if_neg h2]
      exact ⟨Or.inr (Or.inr rfl), by simp [h1], by simp [h2], by simp [h1, h2]⟩

/-- C4 witness: at `p = 40`, `t = 30` the Excess characterization. -/
theorem determine_status_trichotomy_witness :
    determine_status 40 30 = Status.excessInventory ↔ (30 : ℚ) < 40 :=
  (determine_status_trichotomy 40 30 (by norm_num)).2.2.1

/-! ### C9: unresolved required column gives an empty result -/

/-- C9: when the quantity, norm-quantity, or identifier column cannot be
resolved from the headers, `standardize_inventory_data` returns the empty
list instead of raising. -/
theorem missing_column_empty_result (df : RawDf)
    (h : findColumn df.headers qty_columns = none ∨
      findColumn df.headers rm_columns = none ∨
      findColumn df.headers material_columns = none) :
    standardize_inventory_data df = [] := by
  rw [standardize_inventory_data]
  by_cases hrows : df.rows = []
  · rw [if_pos hrows]
  · rw [if_neg hrows]
    cases hq : findColumn df.headers qty_columns with
    | none => rfl
    | some qc =>
      cases hr : findColumn df.headers rm_columns with
      | none => rfl
      | some rc =>
        cases hm : findColumn df.headers material_columns with
        | none => rfl
        | some mc => rcases h with h | h | h <;> simp_all

/-- C9 witness: a dataset whose only header resolves to no required field. -/
theorem missing_column_empty_result_witness :
    standardize_inventory_data ⟨["Foo".data], [[("Foo".data, Cell.str "1".data)]]⟩ = [] :=
  missing_column_empty_result _ (Or.inl (by decide))

/-! ### C5: counts partition the processed list -/

def summaryCount (s : Summary) : ℕ :=
  s.withinNorms.count + s.excessInventory.count + s.shortInventory.count

theorem summaryCount_addToSummary (s : Summary) (p : ProcessedItem) :
    summaryCount (addToSummary s p) = summaryCount s + 1 := by
  cases h : p.status <;> simp [addToSummary, h, summaryCount, bumpTotals] <;> omega

theorem summaryCount_foldl (l : List ProcessedItem) (s : Summary) :
    summaryCount (l.foldl addToSummary s) = summaryCount s + l.length := by
  induction l generalizing s with
  | nil => simp
  | cons p l ih => rw [List.foldl_cons, ih, summaryCount_addToSummary]; simp; omega

/-- The per-vendor partition identity. -/
def statsInv (st : VendorStats) : Prop :=
  st.short_parts + st.excess_parts + st.normal_parts = st.total_parts

theorem statsInv_add (st : VendorStats) (p : ProcessedItem) (h : statsInv st) :
    statsInv (addItemToStats st p) := by
  cases hs : p.status <;> simp [addItemToStats, hs, statsInv] at h ⊢ <;> omega

theorem updateVendor_inv (acc : List (Chars × VendorStats)) (p : ProcessedItem)
    (h : ∀ e ∈ acc, statsInv e.2) : ∀ e ∈ updateVendor acc p, statsInv e.2 := by
  induction acc with
  | nil =>
    intro e he
    simp only [updateVendor, List.mem_singleton] at he
    subst he
    exact statsInv_add _ _ rfl
  | cons hd tl ih =>
    obtain ⟨v, st⟩ := hd
    intro e he
    rw [updateVendor] at he
    split at he
    · rcases List.mem_cons.mp he with rfl | htl
      · exact statsInv_add _ _ (h _ (List.mem_cons_self _ _))
      · exact h _ (List.mem_cons_of_mem _ htl)
    · rcases List.mem_cons.mp he with rfl | htl
      · exact h _ (List.mem_cons_self _ _)
      · exact ih (fun f hf => h _ (List.mem_cons_of_mem _ hf)) _ htl

theorem foldl_updateVendor_inv (l : List ProcessedItem) (acc : List (Chars × VendorStats))
    (h : ∀ e ∈ acc, statsInv e.2) : ∀ e ∈ l.foldl updateVendor acc, statsInv e.2 := by
  induction l generalizing acc with
  | nil => exact h
  | cons p l ih => exact ih _ (updateVendor_inv acc p h)

def sumParts (l : List (Chars × VendorStats)) : ℕ :=
  (l.map fun e => e.2.total_parts).sum

theorem total_parts_add (st : VendorStats) (p : ProcessedItem) :
    (addItemToStats st p).total_parts = st.total_parts + 1 := by
  cases hs : p.status <;> simp [addItemToStats, hs]

theorem sumParts_updateVendor (acc : List (Chars × VendorStats)) (p : ProcessedItem) :
    sumParts (updateVendor acc p) = sumParts acc + 1 := by
  induction acc with
  | nil => simp [updateVendor, sumParts, total_parts_add, emptyVendorStats]
  | cons hd tl ih =>
    obtain ⟨v, st⟩ := hd
    rw [updateVendor]
    split
    · simp [sumParts, total_parts_add]
      omega
    · simp only [sumParts, List.map_cons, List.sum_cons] at ih ⊢
      omega

theorem sumParts_foldl (l : List ProcessedItem) (acc : List (Chars × VendorStats)) :
    sumParts (l.foldl updateVendor acc) = sumParts acc + l.length := by
  induction l generalizing acc with
  | nil => simp
  | cons p l ih => rw [List.foldl_cons, ih, sumParts_updateVendor]; simp; omega

/-- C5: the three per-status counts of `process_data` sum to the length of
the processed list; in `get_vendor_summary`, each vendor's
`short_parts + excess_parts + normal_parts` equals its `total_parts`, and
the vendors' `total_parts` sum to the total processed count. -/
theorem counts_partition_spec (items : List Item) (tolerance : ℚ) :
    ((process_data items tolerance).2.withinNorms.count +
        (process_data items tolerance).2.excessInventory.count +
        (process_data items tolerance).2.shortInventory.count =
      (process_data items tolerance).1.length) ∧
    (∀ v st, (v, st) ∈ get_vendor_summary (process_data items tolerance).1 →
      st.short_parts + st.excess_parts + st.normal_parts = st.total_parts) ∧
    ((get_vendor_summary (process_data items tolerance).1).map
        fun e => e.2.total_parts).sum =
      (process_data items tolerance).1.length := by
  refine ⟨?_, ?_, ?_⟩
  · have := summaryCount_foldl (items.map (processItem tolerance)) initSummary
    simpa [process_data, summaryCount, initSummary] using this
  · intro v st hmem
    exact foldl_updateVendor_inv _ [] (by simp) (v, st) hmem
  · have := sumParts_foldl (items.map (processItem tolerance)) []
    simpa [process_data, get_vendor_summary, sumParts] using this

def itemW : Item :=
  { material := "A1".data, description := [], qty := 28, rm := 20,
    stockValue := 100, vendor := "V".data }

/-- C5 witness: the partition identities instantiated on a one-item dataset. -/
theorem counts_partition_spec_witness :
    ((process_data [itemW] 30).2.withinNorms.count +
        (process_data [itemW] 30).2.excessInventory.count +
        (process_data [itemW] 30).2.shortInventory.count =
      (process_data [itemW] 30).1.length) ∧
    (∀ v st, (v, st) ∈ get_vendor_summary (process_data [itemW] 30).1 →
      st.short_parts + st.excess_parts + st.normal_parts = st.total_parts) ∧
    ((get_vendor_summary (process_data [itemW] 30).1).map
        fun e => e.2.total_parts).sum =
      (process_data [itemW] 30).1.length :=
  counts_partition_spec [itemW] 30

/-! ### C7, C3: the record standardizer -/

theorem filterMap_ite {α β : Type _} (p : α → Bool) (f : α → β) (l : List α) :
    (l.filterMap fun a => if p a then some (f a) else none) = (l.filter p).map f := by
  induction l with
  | nil => rfl
  | cons a l ih =>
    by_cases h : p a <;> simp [List.filterMap_cons, List.filter_cons, h, ih]

/-- With the three required columns resolved, the standardizer keeps
exactly the accepted rows, in original row order. -/
theorem standardize_eq (df : RawDf) (qtyCol rmCol matCol : Chars)
    (hq : findColumn df.headers qty_columns = some qtyCol)
    (hr : findColumn df.headers rm_columns = some rmCol)
    (hm : findColumn df.headers material_columns = some matCol) :
    standardize_inventory_data df =
      (df.rows.filter (rowAccepted matCol qtyCol rmCol)).map
        (mkRowItem matCol qtyCol rmCol (findColumn df.headers desc_columns)
          (findColumn df.headers value_columns) (findColumn df.headers vendor_columns)) := by
  rw [standardize_inventory_data]
  by_cases hrows : df.rows = []
  · rw [if_pos hrows, hrows]
    rfl
  · rw [if_neg hrows, hq, hr, hm]
    exact filterMap_ite _ _ _

/-- C7: a raw record is excluded (builds no item) iff its trimmed identifier
is empty or lowercases to `"nan"`, or its coerced quantity or norm quantity
is negative; the accepted items are the accepted rows mapped in original
row order. -/
theorem standardize_exclusion_spec (df : RawDf) (qtyCol rmCol matCol : Chars)
    (hq : findColumn df.headers qty_columns = some qtyCol)
    (hr : findColumn df.headers rm_columns = some rmCol)
    (hm : findColumn df.headers material_columns = some matCol) :
    (standardize_inventory_data df =
      (df.rows.filter (rowAccepted matCol qtyCol rmCol)).map
        (mkRowItem matCol qtyCol rmCol (findColumn df.headers desc_columns)
          (findColumn df.headers value_columns) (findColumn df.headers vendor_columns))) ∧
    ∀ row : Row,
      buildItem matCol qtyCol rmCol (findColumn df.headers desc_columns)
          (findColumn df.headers value_columns) (findColumn df.headers vendor_columns) row
          = none ↔
        (rawMaterial matCol row = [] ∨
          lowerChars (rawMaterial matCol row) = ['n', 'a', 'n'] ∨
          rawQty qtyCol row < 0 ∨ rawRm rmCol row < 0) := by
  refine ⟨standardize_eq df qtyCol rmCol matCol hq hr hm, fun row => ?_⟩
  have hnone : buildItem matCol qtyCol rmCol (findColumn df.headers desc_columns)
      (findColumn df.headers value_columns) (findColumn df.headers vendor_columns) row = none ↔
      rowAccepted matCol qtyCol rmCol row = false := by
    by_cases h : rowAccepted matCol qtyCol rmCol row <;> simp [buildItem, h]
  rw [hnone, rowAccepted]
  simp only [decide_eq_false_iff_not, not_and_or, not_not, not_le]

/-- C3 / C7 / C9 shared concrete dataset with synonym headers. -/
def dfW : RawDf :=
  { headers := ["Part_Number".data, "Stock_Qty".data, "Target_Qty".data, "Supplier".data],
    rows := [[("Part_Number".data, Cell.str "P1".data),
      ("Stock_Qty".data, Cell.str "5".data),
      ("Target_Qty".data, Cell.str "4".data),
      ("Supplier".data, Cell.str "V1".data)]] }

/-- C7 witness: the exclusion characterization instantiated on `dfW`. -/
theorem standardize_exclusion_spec_witness :
    (standardize_inventory_data dfW =
      (dfW.rows.filter (rowAccepted "Part_Number".data "Stock_Qty".data "Target_Qty".data)).map
        (mkRowItem "Part_Number".data "Stock_Qty".data "Target_Qty".data
          (findColumn dfW.headers desc_columns)
          (findColumn dfW.headers value_columns) (findColumn dfW.headers vendor_columns))) ∧
    ∀ row : Row,
      buildItem "Part_Number".data "Stock_Qty".data "Target_Qty".data
          (findColumn dfW.headers desc_columns) (findColumn dfW.headers value_columns)
          (findColumn dfW.headers vendor_columns) row = none ↔
        (rawMaterial "Part_Number".data row = [] ∨
          lowerChars (rawMaterial "Part_Number".data row) = ['n', 'a', 'n'] ∨
          rawQty "Stock_Qty".data row < 0 ∨ rawRm "Target_Qty".data row < 0) :=
  standardize_exclusion_spec dfW "Stock_Qty".data "Target_Qty".data "Part_Number".data
    (by decide) (by decide) (by decide)

/-- C3 (amended): the standardizer maps each accepted row to its own item,
in order, and the item built from a given row carries as Vendor the trimmed
string from that row's resolved vendor column — even when that trimmed
string is empty — and `"Unknown"` exactly when the column was unresolved. -/
theorem vendor_field_spec (df : RawDf) (qtyCol rmCol matCol : Chars)
    (hq : findColumn df.headers qty_columns = some qtyCol)
    (hr : findColumn df.headers rm_columns = some rmCol)
    (hm : findColumn df.headers material_columns = some matCol) :
    (standardize_inventory_data df =
      (df.rows.filter (rowAccepted matCol qtyCol rmCol)).map
        (mkRowItem matCol qtyCol rmCol (findColumn df.headers desc_columns)
          (findColumn df.headers value_columns) (findColumn df.headers vendor_columns))) ∧
    (∀ vc, findColumn df.headers vendor_columns = some vc →
      ∀ row : Row,
        (mkRowItem matCol qtyCol rmCol (findColumn df.headers desc_columns)
            (findColumn df.headers value_columns)
            (findColumn df.headers vendor_columns) row).vendor =
          pyStrip (cellStr (rowGet row vc (Cell.str strUnknown)))) ∧
    (findColumn df.headers vendor_columns = none →
      ∀ row : Row,
        (mkRowItem matCol qtyCol rmCol (findColumn df.headers desc_columns)
            (findColumn df.headers value_columns)
            (findColumn df.headers vendor_columns) row).vendor = strUnknown) := by
  refine ⟨standardize_eq df qtyCol rmCol matCol hq hr hm, ?_, ?_⟩
  · intro vc hvc row
    simp [mkRowItem, rawVendor, hvc]
  · intro hvc row
    simp [mkRowItem, rawVendor, hvc]

/-- C3 witness: the (amended) per-row vendor rule instantiated on `dfW`. -/
theorem vendor_field_spec_witness :
    (standardize_inventory_data dfW =
      (dfW.rows.filter (rowAccepted "Part_Number".data "Stock_Qty".data "Target_Qty".data)).map
        (mkRowItem "Part_Number".data "Stock_Qty".data "Target_Qty".data
          (findColumn dfW.headers desc_columns)
          (findColumn dfW.headers value_columns) (findColumn dfW.headers vendor_columns))) ∧
    (∀ vc, findColumn dfW.headers vendor_columns = some vc →
      ∀ row : Row,
        (mkRowItem "Part_Number".data "Stock_Qty".data "Target_Qty".data
            (findColumn dfW.headers desc_columns) (findColumn dfW.headers value_columns)
            (findColumn dfW.headers vendor_columns) row).vendor =
          pyStrip (cellStr (rowGet row vc (Cell.str strUnknown)))) ∧
    (findColumn dfW.headers vendor_columns = none →
      ∀ row : Row,
        (mkRowItem "Part_Number".data "Stock_Qty".data "Target_Qty".data
            (findColumn dfW.headers desc_columns) (findColumn dfW.headers value_columns)
            (findColumn dfW.headers vendor_columns) row).vendor = strUnknown) :=
  vendor_field_spec dfW "Stock_Qty".data "Target_Qty".data "Part_Number".data
    (by decide) (by decide) (by decide)

theorem safe_float_of_parse (s : Chars) (hne : s ≠ []) (l : NumLit)
    (h : pyParse (dropPercent (normalizeNum s)) = some l) :
    safe_float_convert (.str s) = l.toRat := by
  rw [safe_float_convert_str, if_neg hne, pyFloat_eq, h]
  rfl

def rowC3 : Row :=
  [("Material".data, Cell.str "A".data), ("QTY".data, Cell.str "5".data),
    ("RM".data, Cell.str "4".data), ("Vendor".data, Cell.str " ".data)]

def dfC3 : RawDf :=
  { headers := ["Material".data, "QTY".data, "RM".data, "Vendor".data], rows := [rowC3] }

theorem rawQty_rowC3 : rawQty "QTY".data rowC3 = 5 := by
  rw [rawQty, show rowGet rowC3 "QTY".data (Cell.str ['0']) = Cell.str "5".data from by decide,
    safe_float_of_parse "5".data (by decide) ⟨false, 5, 0, 0⟩ (by decide)]
  norm_num [NumLit.toRat, applyExp, pow10]

theorem rawRm_rowC3 : rawRm "RM".data rowC3 = 4 := by
  rw [rawRm, show rowGet rowC3 "RM".data (Cell.str ['0']) = Cell.str "4".data from by decide,
    safe_float_of_parse "4".data (by decide) ⟨false, 4, 0, 0⟩ (by decide)]
  norm_num [NumLit.toRat, applyExp, pow10]

theorem rowC3_accepted : rowAccepted "Material".data "QTY".data "RM".data rowC3 = true := by
  rw [rowAccepted]
  refine decide_eq_true ⟨by decide, by decide, ?_, ?_⟩
  · rw [rawQty_rowC3]; norm_num
  · rw [rawRm_rowC3]; norm_num

/-- C3 counterexample: in `dfC3` the vendor column resolves and the accepted
row's vendor cell trims to the empty string; the claim demands Vendor
`"Unknown"`, but the code yields the empty string. -/
theorem vendor_empty_not_unknown_cex :
    (standardize_inventory_data dfC3).map (fun it => it.vendor) = [[]] ∧
      ([] : Chars) ≠ strUnknown := by
  refine ⟨?_, by decide⟩
  rw [standardize_eq dfC3 "QTY".data "RM".data "Material".data (by decide) (by decide)
    (by decide)]
  rw [show dfC3.rows = [rowC3] from rfl, List.filter_cons, rowC3_accepted]
  simp only [List.filter_nil, if_true, List.map_cons, List.map_nil, List.map]
  rw [show (findColumn dfC3.headers vendor_columns) = some "Vendor".data from by decide]
  rw [show (mkRowItem "Material".data "QTY".data "RM".data (findColumn dfC3.headers desc_columns)
      (findColumn dfC3.headers value_columns) (some "Vendor".data) rowC3).vendor =
      rawVendor (some "Vendor".data) rowC3 from rfl]
  rw [show rawVendor (some "Vendor".data) rowC3 = [] from by decide]

/-! ### C6: safe_float / safe_int are total parse-or-default functions -/

theorem safe_int_of_parse (s : Chars) (hne : s ≠ []) (l : NumLit)
    (h : pyParse (normalizeNum s) = some l) :
    safe_int_convert (.str s) = pyTrunc l.toRat := by
  rw [safe_int_convert_str, if_neg hne, pyFloat_eq, h]
  rfl

/-- C6: the coercions never fail: `safe_float` is `0` on missing, empty or
unparsable input and handles comma groups and a trailing percent sign;
`safe_int` parses through the float path and truncates toward zero
(bounded by the value, strictly within distance one, keeping its sign). -/
theorem safe_convert_spec :
    safe_float_convert .na = 0 ∧
    safe_float_convert (.str []) = 0 ∧
    safe_float_convert (.str "1,234.50".data) = 1234.5 ∧
    safe_float_convert (.str "15%".data) = 15 ∧
    safe_int_convert (.str "2,500".data) = 2500 ∧
    safe_int_convert (.str "abc".data) = 0 ∧
    (∀ s : Chars, pyParse (dropPercent (normalizeNum s)) = none →
      safe_float_convert (.str s) = 0) ∧
    (∀ s : Chars, pyParse (normalizeNum s) = none → safe_int_convert (.str s) = 0) ∧
    (∀ (s : Chars) (l : NumLit), pyParse (normalizeNum s) = some l →
      safe_int_convert (.str s) = pyTrunc l.toRat) ∧
    (∀ q : ℚ, 0 ≤ q → (pyTrunc q : ℚ) ≤ q ∧ q - 1 < (pyTrunc q : ℚ) ∧ 0 ≤ pyTrunc q) ∧
    (∀ q : ℚ, q ≤ 0 → q ≤ (pyTrunc q : ℚ) ∧ (pyTrunc q : ℚ) < q + 1 ∧ pyTrunc q ≤ 0) := by
  refine ⟨rfl, rfl, ?_, ?_, ?_, ?_, ?_, ?_, ?_, ?_, ?_⟩
  · rw [safe_float_of_parse "1,234.50".data (by decide) ⟨false, 123450, 2, 0⟩ (by decide)]
    norm_num [NumLit.toRat, applyExp, pow10]
  · rw [safe_float_of_parse "15%".data (by decide) ⟨false, 15, 0, 0⟩ (by decide)]
    norm_num [NumLit.toRat, applyExp, pow10]
  · rw [safe_int_of_parse "2,500".data (by decide) ⟨false, 2500, 0, 0⟩ (by decide)]
    rw [show NumLit.toRat ⟨false, 2500, 0, 0⟩ = 2500 from by
      norm_num [NumLit.toRat, applyExp, pow10]]
    rw [pyTrunc, if_pos (by norm_num)]
    rw [show (2500 : ℚ) = ((2500 : ℤ) : ℚ) from by norm_num, Int.floor_intCast]
  · rw [safe_int_convert_str, if_neg (by decide), pyFloat_eq,
      show pyParse (normalizeNum "abc".data) = none from by decide]
    rfl
  · intro s h
    by_cases hs : s = []
    · subst hs; rfl
    · rw [safe_float_convert_str, if_neg hs, pyFloat_eq, h]
      rfl
  · intro s h
    by_cases hs : s = []
    · subst hs; rfl
    · rw [safe_int_convert_str, if_neg hs, pyFloat_eq, h]
      rfl
  · intro s l h
    have hs : s ≠ [] := by
      rintro rfl
      rw [show normalizeNum [] = [] from rfl, show pyParse [] = none from by decide] at h
      exact Option.noConfusion h
    exact safe_int_of_parse s hs l h
  · intro q hq
    rw [pyTrunc, if_pos hq]
    exact ⟨Int.floor_le q, Int.sub_one_lt_floor q, Int.floor_nonneg.mpr hq⟩
  · intro q hq
    by_cases h0 : 0 ≤ q
    · have hq0 : q = 0 := le_antisymm hq h0
      subst hq0
      rw [pyTrunc, if_pos le_rfl]
      norm_num
    · rw [pyTrunc, if_neg h0]
      exact ⟨Int.le_ceil q, Int.ceil_lt_add_one q, Int.ceil_le.mpr (by exact_mod_cast hq)⟩

/-- C6 witness: the unparsable-input default applied at `"xy"`. -/
theorem safe_convert_spec_witness : safe_float_convert (.str "xy".data) = 0 :=
  safe_convert_spec.2.2.2.2.2.2.1 "xy".data (by decide)

/-! ### C10: internal spaces are removed before parsing -/

theorem eq_of_isPySpace (c : Char) (h : isPySpace c = true) :
    c = ' ' ∨ c = '\t' ∨ c = '\n' ∨ c = '\r' ∨ c = '\x0b' ∨ c = '\x0c' := by
  have := h
  simp only [isPySpace, Bool.or_eq_true, beq_iff_eq] at this
  tauto

theorem removeChar_space_dropWhile (s : Chars)
    (h : ∀ c ∈ s, isPySpace c = true → c = ' ') :
    removeChar ' ' (s.dropWhile isPySpace) = removeChar ' ' s := by
  induction s with
  | nil => rfl
  | cons c s ih =>
    by_cases hq : isPySpace c
    · have hc : c = ' ' := h c (List.mem_cons_self _ _) hq
      rw [List.dropWhile_cons_of_pos hq, ih fun d hd hsp => h d (List.mem_cons_of_mem _ hd) hsp]
      subst hc
      simp [removeChar, List.filter_cons]
    · rw [List.dropWhile_cons_of_neg hq]

theorem removeChar_reverse (c : Char) (s : Chars) :
    removeChar c s.reverse = (removeChar c s).reverse := by
  simp [removeChar, List.filter_reverse]

theorem removeChar_space_pyStrip (s : Chars)
    (h : ∀ c ∈ s, isPySpace c = true → c = ' ') :
    removeChar ' ' (pyStrip s) = removeChar ' ' s := by
  have hsub : ∀ c ∈ (s.dropWhile isPySpace).reverse, c ∈ s := fun c hc =>
    (List.dropWhile_sublist isPySpace).subset (List.mem_reverse.mp hc)
  calc removeChar ' ' (pyStrip s)
      = (removeChar ' ' ((s.dropWhile isPySpace).reverse.dropWhile isPySpace)).reverse := by
        rw [pyStrip, removeChar_reverse]
    _ = (removeChar ' ' ((s.dropWhile isPySpace).reverse)).reverse := by
        rw [removeChar_space_dropWhile _ fun c hc hsp => h c (hsub c hc) hsp]
    _ = removeChar ' ' (s.dropWhile isPySpace) := by
        rw [removeChar_reverse, List.reverse_reverse]
    _ = removeChar ' ' s := removeChar_space_dropWhile s h

theorem removeChar_eq_self (c : Char) (s : Chars) (h : ∀ d ∈ s, d ≠ c) :
    removeChar c s = s :=
  List.filter_eq_self.mpr fun a ha => by simpa using h a ha

theorem pyStrip_subset (s : Chars) : pyStrip s ⊆ s := by
  intro c hc
  rw [pyStrip, List.mem_reverse] at hc
  exact (List.dropWhile_sublist isPySpace).subset
    (List.mem_reverse.mp ((List.dropWhile_sublist isPySpace).subset hc))

theorem normalizeNum_of_plain (s : Chars)
    (hcls : ∀ c ∈ s, c.isDigit = true ∨ c = '.' ∨ c = ' ') :
    normalizeNum s = removeChar ' ' s := by
  have hsp : ∀ c ∈ s, isPySpace c = true → c = ' ' := by
    intro c hc hpysp
    rcases eq_of_isPySpace c hpysp with h | h | h | h | h | h
    · exact h
    all_goals (subst h; exact absurd (hcls _ hc) (by decide))
  have hnc : ∀ d ∈ pyStrip s, d ≠ ',' := by
    intro d hd
    intro hdeq
    subst hdeq
    exact absurd (hcls ',' (pyStrip_subset s hd)) (by decide)
  rw [normalizeNum, removeChar_eq_self ',' _ hnc, removeChar_space_pyStrip s hsp]

theorem dropPercent_eq_self (s : Chars) (h : ∀ d ∈ s, d ≠ '%') : dropPercent s = s := by
  rw [dropPercent]
  cases hl : s.getLast? with
  | none => rw [if_neg (by simp)]
  | some c =>
    have hc : c ≠ '%' := h c (List.mem_of_getLast?_eq_some hl)
    rw [if_neg (by simp [hc])]

/-- C10: both coercions remove internal space characters (not only
leading/trailing whitespace): on any string of digits, a decimal point and
spaces, the result is the parse of the string with all spaces deleted
rather than the 0 default. -/
theorem internal_spaces_removed_spec (s : Chars) (q : ℚ)
    (hcls : ∀ c ∈ s, c.isDigit = true ∨ c = '.' ∨ c = ' ')
    (hp : pyFloat (removeChar ' ' s) = some q) :
    safe_float_convert (.str s) = q ∧ safe_int_convert (.str s) = pyTrunc q := by
  have hnorm := normalizeNum_of_plain s hcls
  have hs : s ≠ [] := by
    rintro rfl
    rw [show removeChar ' ' ([] : Chars) = [] from rfl,
      show pyFloat [] = none from by decide] at hp
    exact Option.noConfusion hp
  have hdp : dropPercent (removeChar ' ' s) = removeChar ' ' s := by
    apply dropPercent_eq_self
    intro d hd hdeq
    subst hdeq
    exact absurd (hcls '%' (List.mem_of_mem_filter hd)) (by decide)
  constructor
  · rw [safe_float_convert_str, if_neg hs, hnorm, hdp, hp]
    rfl
  · rw [safe_int_convert_str, if_neg hs, hnorm, hp]

/-- C10 witness: `"1 234.5"` coerces to `1234.5`, not to the default. -/
theorem internal_spaces_removed_spec_witness :
    safe_float_convert (.str "1 234.5".data) = 1234.5 ∧
      safe_int_convert (.str "1 234.5".data) = pyTrunc 1234.5 :=
  internal_spaces_removed_spec "1 234.5".data 1234.5 (by decide) (by
    rw [pyFloat_eq,
      show pyParse (removeChar ' ' "1 234.5".data) = some ⟨false, 12345, 1, 0⟩ from by decide]
    exact congrArg some (by norm_num [NumLit.toRat, applyExp, pow10]))

/-! ### C8: top-K ranking -/

theorem rankLE_trans (status : Status) :
    ∀ a b c, rankLE status a b → rankLE status b c → rankLE status a c := by
  intro a b c hab hbc
  simp only [rankLE, decide_eq_true_eq] at *
  exact hbc.trans hab

theorem rankLE_total (status : Status) : ∀ a b, rankLE status a b || rankLE status b a := by
  intro a b
  simp only [rankLE, Bool.or_eq_true, decide_eq_true_eq]
  exact le_total _ _

def findGroup (acc : List (Chars × List ProcessedItem)) (v : Chars) :
    Option (List ProcessedItem) :=
  (acc.find? fun e => e.1 == v).map Prod.snd

theorem findGroup_cons (w : Chars) (xs : List ProcessedItem)
    (tl : List (Chars × List ProcessedItem)) (v : Chars) :
    findGroup ((w, xs) :: tl) v = if w = v then some xs else findGroup tl v := by
  by_cases h : w = v
  · subst h
    rw [findGroup, List.find?_cons_of_pos _ (by simp), if_pos rfl]
    rfl
  · rw [findGroup, List.find?_cons_of_neg _ (by simpa using h), if_neg h]
    rfl

theorem findGroup_addToGroup (acc : List (Chars × List ProcessedItem)) (p : ProcessedItem)
    (v : Chars) :
    findGroup (addToGroup acc p) v =
      if v = p.vendor then some ((findGroup acc v).getD [] ++ [p]) else findGroup acc v := by
  induction acc with
  | nil =>
    by_cases h : v = p.vendor
    · subst h
      rw [show addToGroup [] p = [(p.vendor, [p])] from rfl, findGroup_cons, if_pos rfl,
        if_pos rfl]
      rfl
    · rw [show addToGroup [] p = [(p.vendor, [p])] from rfl, findGroup_cons,
        if_neg (fun hw => h hw.symm), if_neg h]
  | cons hd tl ih =>
    obtain ⟨w, xs⟩ := hd
    rw [show addToGroup ((w, xs) :: tl) p =
        (if w = p.vendor then (w, xs ++ [p]) :: tl else (w, xs) :: addToGroup tl p) from rfl]
    by_cases hw : w = p.vendor <;> by_cases hv : w = v
    · have hvp : v = p.vendor := hv.symm.trans hw
      rw [if_pos hw, findGroup_cons, if_pos hv, if_pos hvp, findGroup_cons, if_pos hv]
      rfl
    · have hvp : ¬ v = p.vendor := fun hc => hv (hw.trans hc.symm)
      rw [if_pos hw, findGroup_cons, if_neg hv, if_neg hvp, findGroup_cons, if_neg hv]
    · have hvp : ¬ v = p.vendor := fun hc => hw (hv.trans hc)
      rw [if_neg hw, findGroup_cons, if_pos hv, if_neg hvp, findGroup_cons, if_pos hv]
    · rw [if_neg hw, findGroup_cons, if_neg hv, ih]
      by_cases hvp : v = p.vendor
      · rw [if_pos hvp, if_pos hvp, findGroup_cons, if_neg hv]
      · rw [if_neg hvp, if_neg hvp, findGroup_cons, if_neg hv]

theorem findGroup_mem (acc : List (Chars × List ProcessedItem)) (v : Chars)
    (xs : List ProcessedItem) (hnd : (acc.map Prod.fst).Nodup) (h : (v, xs) ∈ acc) :
    findGroup acc v = some xs := by
  induction acc with
  | nil => cases h
  | cons hd tl ih =>
    obtain ⟨w, ys⟩ := hd
    rcases List.mem_cons.mp h with heq | htl
    · cases heq
      rw [findGroup_cons, if_pos rfl]
    · have hw : w ≠ v := by
        rintro rfl
        have : w ∈ tl.map Prod.fst := by
          simpa using List.mem_map_of_mem Prod.fst htl
        exact (List.nodup_cons.mp (by simpa using hnd)).1 this
      rw [findGroup_cons, if_neg hw]
      exact ih (List.nodup_cons.mp (by simpa using hnd)).2 htl

theorem keys_addToGroup (acc : List (Chars × List ProcessedItem)) (p : ProcessedItem) :
    (addToGroup acc p).map Prod.fst =
      if p.vendor ∈ acc.map Prod.fst then acc.map Prod.fst
      else acc.map Prod.fst ++ [p.vendor] := by
  induction acc with
  | nil => simp [addToGroup]
  | cons hd tl ih =>
    obtain ⟨w, xs⟩ := hd
    rw [show addToGroup ((w, xs) :: tl) p =
        (if w = p.vendor then (w, xs ++ [p]) :: tl else (w, xs) :: addToGroup tl p) from rfl]
    by_cases hw : w = p.vendor
    · rw [if_pos hw]
      subst hw
      simp
    · rw [if_neg hw]
      by_cases hmem : p.vendor ∈ tl.map Prod.fst
      · simp only [List.map_cons, ih, if_pos hmem]
        rw [if_pos (by simp [hmem])]
      · have : ¬ p.vendor ∈ (w, xs).1 :: tl.map Prod.fst := by
          simp only [List.mem_cons]
          rintro (hc | hc)
          · exact hw hc.symm
          · exact hmem hc
        simp only [List.map_cons, ih, if_neg hmem]
        rw [if_neg (by simpa using this)]
        rfl

theorem keys_nodup_addToGroup (acc : List (Chars × List ProcessedItem)) (p : ProcessedItem)
    (h : (acc.map Prod.fst).Nodup) : ((addToGroup acc p).map Prod.fst).Nodup := by
  rw [keys_addToGroup]
  by_cases hmem : p.vendor ∈ acc.map Prod.fst
  · rwa [if_pos hmem]
  · rw [if_neg hmem]
    refine List.nodup_append.mpr ⟨h, List.nodup_singleton _, ?_⟩
    intro a ha
    simp only [List.mem_singleton]
    intro hc
    subst hc
    exact hmem ha

theorem groupByVendor_append (l : List ProcessedItem) (p : ProcessedItem) :
    groupByVendor (l ++ [p]) = addToGroup (groupByVendor l) p := by
  simp [groupByVendor, List.foldl_append]

theorem keys_nodup_groupByVendor (l : List ProcessedItem) :
    ((groupByVendor l).map Prod.fst).Nodup := by
  induction l using List.reverseRecOn with
  | nil => simp [groupByVendor]
  | append_singleton l p ih => rw [groupByVendor_append]; exact keys_nodup_addToGroup _ _ ih

theorem findGroup_groupByVendor (l : List ProcessedItem) (v : Chars) :
    (findGroup (groupByVendor l) v).getD [] = l.filter fun q => decide (q.vendor = v) := by
  induction l using List.reverseRecOn with
  | nil => rfl
  | append_singleton l p ih =>
    rw [groupByVendor_append, findGroup_addToGroup, List.filter_append]
    by_cases h : v = p.vendor
    · rw [if_pos h, Option.getD_some, ih]
      subst h
      simp
    · rw [if_neg h, ih]
      have : (decide (p.vendor = v)) = false := by
        simpa using fun hc => h hc.symm
      simp [this]

/-- C8: the top-parts selections rank Short Inventory by `abs` of the
variance value descending and the other statuses by signed variance value
descending, take 10 globally and 3 per vendor after grouping by vendor,
and are stable: tied items keep their original relative order. -/
theorem top_parts_ranking_spec (data : List ProcessedItem) (status : Status) :
    (top_parts_selection data status =
      ((filterByStatus data status).mergeSort (rankLE status)).take 10) ∧
    ((filterByStatus data status).mergeSort (rankLE status)).Perm
      (filterByStatus data status) ∧
    ((filterByStatus data status).mergeSort (rankLE status)).Pairwise
      (fun a b =>
        if status = .shortInventory then |b.varianceValue| ≤ |a.varianceValue|
        else b.varianceValue ≤ a.varianceValue) ∧
    (∀ a b, varianceSortKey status a = varianceSortKey status b →
      List.Sublist [a, b] (filterByStatus data status) →
      List.Sublist [a, b] ((filterByStatus data status).mergeSort (rankLE status))) ∧
    (∀ v items, (v, items) ∈ vendor_wise_top_parts data status →
      items = (((filterByStatus data status).filter fun q => decide (q.vendor = v)).mergeSort
        (rankLE status)).take 3) := by
  refine ⟨rfl, List.mergeSort_perm _ _, ?_, ?_, ?_⟩
  · have hs := @List.sorted_mergeSort ProcessedItem (rankLE status) (rankLE_trans status)
      (rankLE_total status) (filterByStatus data status)
    refine hs.imp ?_
    intro a b hab
    simp only [rankLE, decide_eq_true_eq, varianceSortKey] at hab
    by_cases hst : status = .shortInventory <;> simp [hst] at hab ⊢ <;> exact hab
  · intro a b hk hsub
    exact List.pair_sublist_mergeSort (rankLE_trans status) (rankLE_total status)
      (by simp [rankLE, hk]) hsub
  · intro v items hmem
    rw [vendor_wise_top_parts] at hmem
    obtain ⟨g, hg, heq⟩ := List.mem_map.mp hmem
    have hv : g.1 = v := congrArg Prod.fst heq
    have hi : (g.2.mergeSort (rankLE status)).take 3 = items := congrArg Prod.snd heq
    subst hv
    have h1 : findGroup (groupByVendor (filterByStatus data status)) g.1 = some g.2 :=
      findGroup_mem _ _ _ (keys_nodup_groupByVendor _) hg
    have h2 := findGroup_groupByVendor (filterByStatus data status) g.1
    rw [h1, Option.getD_some] at h2
    rw [← hi, h2]

def pItemA : ProcessedItem :=
  { material := "A".data, description := [], qty := 5, rm := 10, variancePercent := -50,
    varianceValue := -5, status := .shortInventory, stockValue := 10, vendor := "V1".data }

def pItemB : ProcessedItem :=
  { material := "B".data, description := [], qty := 2, rm := 10, variancePercent := -80,
    varianceValue := -8, status := .shortInventory, stockValue := 20, vendor := "V2".data }

/-- C8 witness: the ranking characterization on a concrete two-item list. -/
theorem top_parts_ranking_spec_witness :
    (top_parts_selection [pItemA, pItemB] .shortInventory =
      ((filterByStatus [pItemA, pItemB] .shortInventory).mergeSort
        (rankLE .shortInventory)).take 10) ∧
    ((filterByStatus [pItemA, pItemB] .shortInventory).mergeSort
        (rankLE .shortInventory)).Perm (filterByStatus [pItemA, pItemB] .shortInventory) ∧
    ((filterByStatus [pItemA, pItemB] .shortInventory).mergeSort
        (rankLE .shortInventory)).Pairwise
      (fun a b =>
        if Status.shortInventory = Status.shortInventory then
          |b.varianceValue| ≤ |a.varianceValue|
        else b.varianceValue ≤ a.varianceValue) ∧
    (∀ a b, varianceSortKey .shortInventory a = varianceSortKey .shortInventory b →
      List.Sublist [a, b] (filterByStatus [pItemA, pItemB] .shortInventory) →
      List.Sublist [a, b] ((filterByStatus [pItemA, pItemB] .shortInventory).mergeSort
        (rankLE .shortInventory))) ∧
    (∀ v items, (v, items) ∈ vendor_wise_top_parts [pItemA, pItemB] .shortInventory →
      items = (((filterByStatus [pItemA, pItemB] .shortInventory).filter
        fun q => decide (q.vendor = v)).mergeSort (rankLE .shortInventory)).take 3) :=
  top_parts_ranking_spec [pItemA, pItemB] .shortInventory

end Ana
